import Mathlib

/-!
Verification development for the changelog-notes core of this repository
(`src/changelog-notes/default.ts`).  The TypeScript functions are embedded
shallowly as executable Lean functions over `List Char` / `String`:
regex-based scanners (`htmlEscape`, the issue-key linkifier, the
breaking-change issue-link rewriter, the header classifiers) are modelled
with explicit leftmost / ordered-alternation / greedy matching, exactly as
the JavaScript regular-expression engine resolves them.
-/

namespace ChangelogNotes

/-- Backtick character (code point 96), written via `Char.ofNat`. -/
def tick : Char := Char.ofNat 96

/-- Line terminators excluded by the JavaScript regex `.` metacharacter. -/
def isNlChar (c : Char) : Bool :=
  c = '\n' || c = '\r' || c.toNat = 0x2028 || c.toNat = 0x2029

/-- Characters matched by the JavaScript `.` metacharacter (no `s` flag). -/
def isDotChar (c : Char) : Bool := !(isNlChar c)

/-- Characters in the class `[A-Z]`. -/
def isUpperAZ (c : Char) : Bool := 'A' ≤ c && c ≤ 'Z'

/-- Characters in the class `[a-z]`. -/
def isLowerAZ (c : Char) : Bool := 'a' ≤ c && c ≤ 'z'

/-- Characters in the class `[0-9]` (JavaScript `\d`). -/
def isDigit09 (c : Char) : Bool := '0' ≤ c && c ≤ '9'

/-- Characters in the class `[A-Z0-9]` used by the issue-key patterns. -/
def isKeyClass (c : Char) : Bool := isUpperAZ c || isDigit09 c

/-- JavaScript word characters `\w` = `[A-Za-z0-9_]`, used by `\b`. -/
def isWordChar (c : Char) : Bool :=
  isUpperAZ c || isLowerAZ c || isDigit09 c || c = '_'

/-- ASCII letters `[A-Za-z]`. -/
def isLetterAZ (c : Char) : Bool := isUpperAZ c || isLowerAZ c

/-- Whitespace characters matched by JavaScript `\s` (the common ones). -/
def isJsWs (c : Char) : Bool :=
  c = ' ' || c = '\t' || c = '\n' || c = '\r' || c = '\x0b' || c = '\x0c' ||
  c.toNat = 0xa0 || c.toNat = 0x1680 ||
  (0x2000 ≤ c.toNat && c.toNat ≤ 0x200a) ||
  c.toNat = 0x2028 || c.toNat = 0x2029 || c.toNat = 0x202f ||
  c.toNat = 0x205f || c.toNat = 0x3000 || c.toNat = 0xfeff

/-!
The sanitizer `htmlEscape` implements the replacement

  message.replace(/``[^`].*[^`]``|`[^`]*`|<|>/g, m => m.length > 1 ? m : escape(m))

The first alternative is a double-backtick code span with a greedy `.*`
(which may itself contain backticks but no line terminators); the second is
a single-backtick span; bare `<` / `>` are escaped.  Matching is leftmost,
alternatives are tried in order, and `.*` backtracks from the longest
extent, i.e. the span closes at the farthest `` [^`]`` `` closer reachable
through `.`-characters.
-/

/-- Test for a double-backtick closer `` [^`]`` `` at the head of the list:
returns the three matched characters and the remainder. -/
def closerAt : List Char → Option (List Char × List Char)
  | y :: a :: b :: t =>
    if y ≠ tick && a = tick && b = tick then some ([y, a, b], t) else none
  | _ => none

/-- Greedy search for the farthest double-backtick closer reachable through
`.`-characters; models the backtracking of `.*` followed by `` [^`]`` ``.
Returns the consumed characters (the `.*` part plus the closer) and the
rest of the input. -/
def goClose : List Char → Option (List Char × List Char)
  | [] => none
  | c :: t =>
    match (if isDotChar c then (goClose t).map (fun p => (c :: p.1, p.2)) else none) with
    | some r => some r
    | none => closerAt (c :: t)

/-- Matcher for the first alternative `` ``[^`].*[^`]`` `` at the head of
the input.  Returns the matched span and the remainder. -/
def matchAlt1 : List Char → Option (List Char × List Char)
  | a :: b :: c :: u =>
    if a = tick && b = tick && c ≠ tick then
      (goClose u).map (fun p => (a :: b :: c :: p.1, p.2))
    else none
  | _ => none

/-- Matcher for the second alternative `` `[^`]*` `` at the head of the
input: a single backtick, a run of non-backticks, and the next backtick. -/
def matchAlt2 : List Char → Option (List Char × List Char)
  | c :: r =>
    if c = tick then
      match r.dropWhile (fun x => x ≠ tick) with
      | b :: t => some (c :: (r.takeWhile (fun x => x ≠ tick) ++ [b]), t)
      | [] => none
    else none
  | [] => none

/-- One fueled left-to-right pass of the sanitizer's global replacement.
At each position the two code-span alternatives are tried in order; a
matched span is copied verbatim, a bare `<` or `>` is escaped, and any
other character is copied.  Fuel `l.length` always suffices since every
step consumes at least one character. -/
def escGo : Nat → List Char → List Char
  | _, [] => []
  | 0, l => l
  | f + 1, c :: rest =>
    match matchAlt1 (c :: rest) with
    | some p => p.1 ++ escGo f p.2
    | none =>
      match matchAlt2 (c :: rest) with
      | some p => p.1 ++ escGo f p.2
      | none =>
        if c = '<' then '&' :: 'l' :: 't' :: ';' :: escGo f rest
        else if c = '>' then '&' :: 'g' :: 't' :: ';' :: escGo f rest
        else c :: escGo f rest

/-- The sanitizer on character lists. -/
def htmlEscapeL (l : List Char) : List Char := escGo l.length l

/-- The sanitizer `htmlEscape` of `default.ts` on strings. -/
def htmlEscape (s : String) : String := String.mk (htmlEscapeL s.data)

/-!
The issue-key linkifier implements

  subject.replace(issueKeyRegex, (m, key) => prefix + "[" + key + "](" + trackerUrl + key + ")")

where `issueKeyRegex` is, with a configured tracker list,
`(?:^|[^A-Z0-9])((?:P1|...|Pn)-\d+)` (prefixes regex-escaped, tried in
order) and otherwise `(?:^|[^A-Z0-9])(([A-Z][A-Z0-9]+-\d+))`, both with the
`g` flag, and `prefix` is the matched separator (`m.slice(0, m.indexOf(key))`).
-/

/-- Matcher for the default key pattern `[A-Z][A-Z0-9]+-\d+` at the head of
the input: an uppercase letter, a maximal nonempty `[A-Z0-9]` run, a dash
and a maximal nonempty digit run.  (Backtracking cannot produce any other
extent: shortening the class run would align the literal dash with a class
character.)  Returns the key and the remainder. -/
def matchKeyDefault : List Char → Option (List Char × List Char)
  | [] => none
  | c :: rest =>
    if isUpperAZ c then
      match rest.takeWhile isKeyClass with
      | [] => none
      | r0 :: rs =>
        match rest.dropWhile isKeyClass with
        | '-' :: after =>
          match after.takeWhile isDigit09 with
          | [] => none
          | d0 :: ds =>
            some ((c :: r0 :: rs) ++ '-' :: d0 :: ds, after.dropWhile isDigit09)
        | _ => none
    else none

/-- Matcher for the configured-prefix key pattern `(?:P1|...|Pn)-\d+` at the
head of the input: the alternatives are tried in order; a prefix whose
continuation (dash plus digits) fails falls through to the next one. -/
def matchKeyPrefixed : List (List Char) → List Char → Option (List Char × List Char)
  | [], _ => none
  | p :: ps, l =>
    if p.isPrefixOf l then
      match l.drop p.length with
      | '-' :: after =>
        match after.takeWhile isDigit09 with
        | [] => matchKeyPrefixed ps l
        | d0 :: ds => some (p ++ '-' :: d0 :: ds, after.dropWhile isDigit09)
      | _ => matchKeyPrefixed ps l
    else matchKeyPrefixed ps l

/-- Key matcher selected by the tracker configuration. -/
def matchKey : Option (List (List Char)) → List Char → Option (List Char × List Char)
  | some ps, l => matchKeyPrefixed ps l
  | none, l => matchKeyDefault l

/-- The replacement `[KEY](trackerUrl + KEY)` for a matched key. -/
def linkWrap (url key : List Char) : List Char :=
  '[' :: key ++ ']' :: '(' :: url ++ key ++ [')']

/-- Fueled scanner for the global issue-key replacement.  `atStart` is true
only at index 0, where the `^` alternative of the separator group applies;
elsewhere a match needs a one-character `[^A-Z0-9]` separator, which is
kept unchanged in the output. -/
def lkGo (cfg : Option (List (List Char))) (url : List Char) :
    Nat → Bool → List Char → List Char
  | _, _, [] => []
  | 0, _, l => l
  | f + 1, atStart, c :: rest =>
    match (if atStart then matchKey cfg (c :: rest) else none) with
    | some p => linkWrap url p.1 ++ lkGo cfg url f false p.2
    | none =>
      if isKeyClass c then c :: lkGo cfg url f false rest
      else
        match matchKey cfg rest with
        | some p => c :: (linkWrap url p.1 ++ lkGo cfg url f false p.2)
        | none => c :: lkGo cfg url f false rest

/-- The issue-key linkifier on character lists. -/
def linkifyL (cfg : Option (List (List Char))) (url l : List Char) : List Char :=
  lkGo cfg url l.length true l

/-- The issue-key linkifier on strings, as applied to `subject` in
`buildNotes` when a tracker URL is configured. -/
def linkify (cfg : Option (List String)) (url s : String) : String :=
  String.mk (linkifyL (cfg.map (fun ps => ps.map String.data)) url.data s.data)

/-!
The breaking-change note rewriter implements

  note.text.replace(/\(#(\d+)\)/, "([#$1](host/owner/repo/issues/$1))")

without the `g` flag: only the leftmost occurrence is replaced and the rest
of the text is left untouched.
-/

/-- Matcher for `\(#(\d+)\)` at the head of the input: returns the digit
group and the remainder. -/
def riMatchAt : List Char → Option (List Char × List Char)
  | c1 :: c2 :: r =>
    if c1 = '(' && c2 = '#' then
      match r.takeWhile isDigit09 with
      | [] => none
      | d0 :: ds =>
        match r.dropWhile isDigit09 with
        | ')' :: t => some (d0 :: ds, t)
        | _ => none
    else none
  | _ => none

/-- The replacement `([#N](host/owner/repo/issues/N))`. -/
def issueLinkRepl (host owner repo ds : List Char) : List Char :=
  ("([#").data ++ ds ++ ("](").data ++ host ++ '/' :: owner ++ '/' :: repo ++
    ("/issues/").data ++ ds ++ ("))").data

/-- Scanner for the single (first-occurrence) issue-link replacement; after
the first match the remainder is copied verbatim. -/
def riGo (host owner repo : List Char) : List Char → List Char
  | [] => []
  | c :: rest =>
    match riMatchAt (c :: rest) with
    | some p => issueLinkRepl host owner repo p.1 ++ p.2
    | none => c :: riGo host owner repo rest

/-- The text rewriting performed by `replaceIssueLink` of `default.ts`. -/
def replaceIssueText (host owner repo text : String) : String :=
  String.mk (riGo host.data owner.data repo.data text.data)

/-- A commit note, `{title, text}`. -/
structure Note where
  title : String
  text : String
deriving DecidableEq, Repr

/-- The note rewriting of `replaceIssueLink` of `default.ts` (value level;
the in-place `note.text` assignment is modelled separately for the
mutation analysis). -/
def replaceIssueLink (host owner repo : String) (note : Note) : Note :=
  { note with text := replaceIssueText host owner repo note.text }

/-!
Header classifiers of `default.ts`: the tracker-issue header test
`/^(\[[A-Z][A-Z0-9]+-\d+\]|[A-Z][A-Z0-9]+-\d+):\s/` (line 70, fixed, not
configured by `trackerList`), and the raw-commit recovery tests
`rawIssueHeader`, `conventionalHeader`, `mergeHeader`, `skipRelease`
(lines 123-126).
-/

/-- Test for the fixed `jiraHeader` pattern
`^(\[[A-Z][A-Z0-9]+-\d+\]|[A-Z][A-Z0-9]+-\d+):\s`. -/
def jiraHeaderTest (l : List Char) : Bool :=
  (match l with
   | '[' :: r =>
     match matchKeyDefault r with
     | some p =>
       match p.2 with
       | ']' :: ':' :: w :: _ => isJsWs w
       | _ => false
     | none => false
   | _ => false)
  ||
  (match matchKeyDefault l with
   | some p =>
     match p.2 with
     | ':' :: w :: _ => isJsWs w
     | _ => false
   | none => false)

/-- Test for `rawIssueHeader` = `^(\[[A-Z][A-Z0-9]+-\d+\]|[A-Z][A-Z0-9]+-\d+)\b`.
After the bracketed form the `\b` requires a word character next (the `]`
is a non-word character); after the bare form it requires a non-word
character or the end of the input (the last digit is a word character). -/
def rawIssueHeaderTest (l : List Char) : Bool :=
  (match l with
   | '[' :: r =>
     match matchKeyDefault r with
     | some p =>
       match p.2 with
       | ']' :: w :: _ => isWordChar w
       | _ => false
     | none => false
   | _ => false)
  ||
  (match matchKeyDefault l with
   | some p =>
     match p.2 with
     | [] => true
     | w :: _ => !isWordChar w
   | none => false)

/-- The conventional types of `conventionalHeader` in source order. -/
def convTypes : List String :=
  ["feat", "fix", "docs", "style", "refactor", "perf", "test", "build", "ci",
   "chore", "revert"]

/-- Lazy search for `\)?:\s` closing the optional scope group `(\(.*?\))?`:
at each position either the close pattern `):<ws>` matches here, or the
current character is a `.`-character and the search continues. -/
def lazyParen : List Char → Bool
  | [] => false
  | c :: t =>
    (match c, t with
     | ')', ':' :: w :: _ => isJsWs w
     | _, _ => false)
    || (isDotChar c && lazyParen t)

/-- Continuation of `conventionalHeader` after the literal type: either
`:<ws>` directly, or a parenthesized scope followed by `:<ws>`. -/
def contAfterType : List Char → Bool
  | ':' :: w :: _ => isJsWs w
  | '(' :: r => lazyParen r
  | _ => false

/-- Test for `conventionalHeader` =
`^(feat|fix|docs|style|refactor|perf|test|build|ci|chore|revert)(\(.*?\))?:\s`. -/
def convHeaderTest (l : List Char) : Bool :=
  convTypes.any (fun ty => ty.data.isPrefixOf l && contAfterType (l.drop ty.data.length))

/-- Test for `mergeHeader` = `^Merge\b`. -/
def mergeHeaderTest (l : List Char) : Bool :=
  ("Merge").data.isPrefixOf l &&
  (match l.drop 5 with
   | [] => true
   | w :: _ => !isWordChar w)

/-- ASCII lowercasing, modelling the `i` flag of `skipRelease`. -/
def toLowerJs (c : Char) : Char :=
  if isUpperAZ c then Char.ofNat (c.toNat + 32) else c

/-- Substring test on character lists. -/
def containsSub (pat : List Char) : List Char → Bool
  | [] => pat.isPrefixOf ([] : List Char)
  | c :: t => pat.isPrefixOf (c :: t) || containsSub pat t

/-- Test for `skipRelease` = `/release[- ]please|^chore\(main\): release/i`. -/
def skipReleaseTest (l : List Char) : Bool :=
  let low := l.map toLowerJs
  containsSub (("release-please").data) low ||
  containsSub (("release please").data) low ||
  (("chore(main): release").data).isPrefixOf low

/-!
Data model and pipeline of `buildNotes` (`default.ts`, lines 51-199).  The
Section Renderer (`conventional-changelog-writer` with the
`conventional-changelog-conventionalcommits` preset) is an external
collaborator; `buildNotesWith` is parameterized by it, and a renderer
modelled from the spec is supplied for closed-form evaluation.
-/

/-- A conventionally parsed commit (`ConventionalCommit` of `commit.ts`). -/
structure ConventionalCommit where
  sha : String
  message : String
  bareMessage : String
  type : String
  scope : Option String
  notes : List Note
  references : List String
  breaking : Bool
deriving DecidableEq, Repr

/-- A raw commit from the recovery source (`options.commits`). -/
structure RawCommit where
  sha : String
  message : String
deriving DecidableEq, Repr

/-- A changelog section configuration entry (`ChangelogSection`); the
`section` field is renamed `sectionName` (`section` is reserved in Lean). -/
structure ChangelogSection where
  type : String
  sectionName : String
  hidden : Bool := false
deriving DecidableEq, Repr

/-- The recognized `BuildNotesOptions` fields. -/
structure BuildNotesOptions where
  host : Option String := none
  owner : String := ""
  repository : String := ""
  version : Option String := none
  previousTag : Option String := none
  currentTag : Option String := none
  changelogSections : Option (List ChangelogSection) := none
  commits : Option (List RawCommit) := none
  trackerList : Option (List String) := none
  trackerUrl : Option String := none
deriving DecidableEq, Repr

/-- The template context built at the top of `buildNotes`. -/
structure BuildContext where
  host : String
  owner : String
  repository : String
  version : Option String
  previousTag : Option String
  currentTag : Option String
  linkCompare : Bool
deriving DecidableEq, Repr

/-- A classified changelog entry handed to the writer. -/
structure ChangelogEntry where
  body : String
  subject : String
  type : String
  scope : Option String
  notes : List Note
  references : List String
  header : String
  footer : String
  hash : String
deriving DecidableEq, Repr

/-- The default host (`DEFAULT_HOST` of `default.ts`). -/
def DEFAULT_HOST : String := "https://github.com"

/-- The context construction: `host: options.host || DEFAULT_HOST` (an
empty string is falsy and falls back to the default) and
`linkCompare: !!options.previousTag`. -/
def buildContext (options : BuildNotesOptions) : BuildContext :=
  { host := match options.host with
      | some h => if h = "" then DEFAULT_HOST else h
      | none => DEFAULT_HOST
    owner := options.owner
    repository := options.repository
    version := options.version
    previousTag := options.previousTag
    currentTag := options.currentTag
    linkCompare := match options.previousTag with
      | some t => t != ""
      | none => false }

/-- `trackerPrefixes`: the configured tracker list when nonempty, else none. -/
def trackerPrefixesOf (options : BuildNotesOptions) : Option (List String) :=
  match options.trackerList with
  | some ps => if ps.length > 0 then some ps else none
  | none => none

/-- The `if (trackerUrl) subject = subject.replace(issueKeyRegex, ...)` step
(a missing or empty tracker URL is falsy and leaves the subject unchanged). -/
def applyTracker (options : BuildNotesOptions) (s : String) : String :=
  match options.trackerUrl with
  | some u => if u = "" then s else linkify (trackerPrefixesOf options) u s
  | none => s

/-- Classification of one parsed commit into a changelog entry
(`default.ts` lines 77-119): breaking-change notes are filtered and
rewritten, the fixed `jiraHeader` pattern decides between the raw header
and `bareMessage` as subject source and forces `type = "others"`, and the
subject is sanitized and then linkified. -/
def classifyCommit (ctx : BuildContext) (options : BuildNotesOptions)
    (commit : ConventionalCommit) : ChangelogEntry :=
  let notes := (commit.notes.filter (fun n => n.title == "BREAKING CHANGE")).map
    (replaceIssueLink ctx.host ctx.owner ctx.repository)
  let isJira := jiraHeaderTest commit.message.data
  let subject := applyTracker options
    (htmlEscape (if isJira then commit.message else commit.bareMessage))
  { body := ""
    subject := subject
    type := if isJira then "others" else commit.type
    scope := commit.scope
    notes := notes
    references := commit.references
    header := commit.message
    footer := String.intercalate "\n"
      ((commit.notes.filter (fun n => n.title == "RELEASE AS")).map
        (fun n => "Release-As: " ++ n.text))
    hash := commit.sha }

/-- The `seenShas` set: shas of the parsed commits (`if (commit.sha)` skips
an empty sha). -/
def seenShas (commits : List ConventionalCommit) : List String :=
  (commits.filter (fun c => c.sha != "")).map (fun c => c.sha)

/-- The first line of a raw commit message (`raw.message.split('\n')[0]`). -/
def firstLine (s : String) : String :=
  String.mk (s.data.takeWhile (fun c => c != '\n'))

/-- The inclusion test of the raw-commit recovery pass (`default.ts` lines
131-135): include if the first line has an issue-like header, or otherwise
if it is neither a conventional header, nor a merge header, nor a
release-automation message. -/
def includeRaw (msg : List Char) : Bool :=
  rawIssueHeaderTest msg ||
  (!(convHeaderTest msg) && !(mergeHeaderTest msg) && !(skipReleaseTest msg))

/-- The entry pushed for an included raw commit (`default.ts` lines 144-157). -/
def rawEntry (options : BuildNotesOptions) (msg : String) (sha : String) : ChangelogEntry :=
  { body := ""
    subject := applyTracker options (htmlEscape msg)
    type := "others"
    scope := none
    notes := []
    references := []
    header := msg
    footer := ""
    hash := sha }

/-- The raw-commit recovery pass: commits whose sha was already consumed are
skipped; the rest are filtered by `includeRaw` and classified as Others. -/
def rawRecovery (options : BuildNotesOptions) (seen : List String) : List ChangelogEntry :=
  match options.commits with
  | none => []
  | some raws =>
    (raws.filter (fun r =>
       !(seen.contains r.sha) && includeRaw (firstLine r.message).data)).map
      (fun r => rawEntry options (firstLine r.message) r.sha)

/-- The full `changelogCommits` list: classified parsed commits followed by
the raw-commit recovery entries. -/
def changelogCommitsOf (commits : List ConventionalCommit)
    (options : BuildNotesOptions) : List ChangelogEntry :=
  commits.map (classifyCommit (buildContext options) options) ++
    rawRecovery options (seenShas commits)

/-- JavaScript `String.prototype.trim` on character lists. -/
def jsTrimL (l : List Char) : List Char :=
  ((l.dropWhile isJsWs).reverse.dropWhile isJsWs).reverse

/-- JavaScript `String.prototype.trim`. -/
def jsTrim (s : String) : String := String.mk (jsTrimL s.data)

/-- One Others bullet of the fallback block (`default.ts` lines 188-195):
`* <subject> ([<sha7>](host/owner/repo/commit/<sha>))`, the link omitted
for an absent sha, the whole line trimmed. -/
def bulletOf (ctx : BuildContext) (e : ChangelogEntry) : String :=
  let sha7 := String.mk (e.hash.data.take 7)
  let link := if sha7 = "" then ""
    else "([" ++ sha7 ++ "](" ++ ctx.host ++ "/" ++ ctx.owner ++ "/" ++
      ctx.repository ++ "/commit/" ++ e.hash ++ "))"
  jsTrim ("* " ++ e.subject ++ " " ++ link)

/-- The fallback assembly (`default.ts` lines 178-197): whenever any
Others-classified entries exist, a `### Others` block is appended after the
rendered Markdown (unconditionally; the `hasSectionsOrBullets` test on line
174 is computed but never used). -/
def othersFallback (ctx : BuildContext) (entries : List ChangelogEntry)
    (rendered : String) : String :=
  let others := entries.filter (fun e => e.type == "others")
  if others.length > 0 then
    String.intercalate "\n"
      ((if rendered.length > 0 then [rendered, ""] else []) ++
        ["### Others", ""] ++ others.map (bulletOf ctx))
  else rendered

/-- `buildNotes`, parameterized by the external Section Renderer: build the
context and the entry list, render (and trim), then run the fallback
assembler. -/
def buildNotesWith (render : List ChangelogEntry → BuildContext → String)
    (commits : List ConventionalCommit) (options : BuildNotesOptions) : String :=
  let ctx := buildContext options
  let entries := changelogCommitsOf commits options
  othersFallback ctx entries (jsTrim (render entries ctx))

/-- Modelled from the spec: the default SectionMap of the external
`conventional-changelog-conventionalcommits` preset used when no
`changelogSections` are configured (visible feat/fix/perf/revert headings,
the remaining conventional types hidden; no Others heading). -/
def defaultPresetSections : List ChangelogSection :=
  [{ type := "feat", sectionName := "Features" },
   { type := "fix", sectionName := "Bug Fixes" },
   { type := "perf", sectionName := "Performance Improvements" },
   { type := "revert", sectionName := "Reverts" },
   { type := "docs", sectionName := "Documentation", hidden := true },
   { type := "style", sectionName := "Styles", hidden := true },
   { type := "chore", sectionName := "Miscellaneous Chores", hidden := true },
   { type := "refactor", sectionName := "Code Refactoring", hidden := true },
   { type := "test", sectionName := "Tests", hidden := true },
   { type := "build", sectionName := "Build System", hidden := true },
   { type := "ci", sectionName := "Continuous Integration", hidden := true }]

/-- Modelled from the spec: one section of the Section Renderer's output
(spec 4.4) - entries grouped under the heading matching their type,
hidden-type groups suppressed, empty groups omitted. -/
def renderSection (entries : List ChangelogEntry) (s : ChangelogSection) : List String :=
  let es := entries.filter (fun e => e.type == s.type)
  if s.hidden || es.isEmpty then []
  else ["### " ++ s.sectionName, ""] ++ es.map (fun e => "* " ++ e.subject)

/-- Modelled from the spec: the external Section Renderer (spec 4.4) - a
version header when a version is present, then the configured sections in
order; entries whose type has no section entry are dropped silently. -/
def renderSections (sections : List ChangelogSection)
    (entries : List ChangelogEntry) (ctx : BuildContext) : String :=
  let headerLines := match ctx.version with
    | some v => ["## " ++ v]
    | none => []
  String.intercalate "\n" (headerLines ++ (sections.map (renderSection entries)).flatten)

/-- `buildNotes` composed with the spec-modelled Section Renderer; the
writer receives `config.types` only when `changelogSections` is configured,
otherwise the preset default sections apply. -/
def buildNotesModelled (commits : List ConventionalCommit)
    (options : BuildNotesOptions) : String :=
  buildNotesWith (renderSections (options.changelogSections.getD defaultPresetSections))
    commits options

/-- The observable effect of `buildNotes` on one input note: the filtered
notes alias the commit's note objects, so `replaceIssueLink`'s in-place
`note.text` assignment rewrites the text of every note titled
`BREAKING CHANGE`; other notes are untouched. -/
def postCallNote (ctx : BuildContext) (n : Note) : Note :=
  if n.title == "BREAKING CHANGE"
  then replaceIssueLink ctx.host ctx.owner ctx.repository n
  else n

/-- The observable post-call state of one input commit. -/
def postCallCommit (ctx : BuildContext) (c : ConventionalCommit) : ConventionalCommit :=
  { c with notes := c.notes.map (postCallNote ctx) }

/-- The observable post-call state of the whole input commit list. -/
def buildNotesPostCommits (commits : List ConventionalCommit)
    (options : BuildNotesOptions) : List ConventionalCommit :=
  commits.map (postCallCommit (buildContext options))

/-- Number of (possibly overlapping) occurrences of `pat` in a character
list: the number of suffix positions where `pat` is a prefix. -/
def countOcc (pat : List Char) : List Char → Nat
  | [] => if pat.isPrefixOf ([] : List Char) then 1 else 0
  | c :: t => (if pat.isPrefixOf (c :: t) then 1 else 0) + countOcc pat t

/-!
Concrete instances used by the counterexamples and witnesses below.
-/

/-- Commit with a tracker-issue header, classified as Others. -/
def c1commit : ConventionalCommit :=
  { sha := "abcdef0123", message := "ABC-9: add x", bareMessage := "add x",
    type := "fix", scope := none, notes := [], references := [], breaking := false }

/-- Options configuring a visible Others section for the renderer. -/
def c1options : BuildNotesOptions :=
  { host := some "h", owner := "o", repository := "r",
    changelogSections := some [{ type := "others", sectionName := "Others" }] }

/-- Parsed commit and raw commit sharing the sha `s1`. -/
def c1wCommit : ConventionalCommit :=
  { sha := "s1", message := "fix: a", bareMessage := "a", type := "fix",
    scope := none, notes := [], references := [], breaking := false }

/-- Options with a raw-commit list overlapping the parsed commits on `s1`. -/
def c1wOptions : BuildNotesOptions :=
  { commits := some [{ sha := "s1", message := "misc work" },
                     { sha := "s2", message := "other work" }] }

/-- Commit whose header key prefix `XYZ` is not in the configured list. -/
def c2commit : ConventionalCommit :=
  { sha := "x1", message := "XYZ-99: fix it", bareMessage := "fix it",
    type := "fix", scope := none, notes := [], references := [], breaking := false }

/-- Options configuring the tracker allow-list `["ABC"]`. -/
def c2options : BuildNotesOptions := { trackerList := some ["ABC"] }

/-- Options with a letterless raw commit in the recovery source. -/
def c5options : BuildNotesOptions :=
  { commits := some [{ sha := "z1", message := "1.2.3" }] }

/-- Two double-backtick spans with a bare `<` between them. -/
def c6cexInput : List Char :=
  [tick, tick, 'a', tick, tick, ' ', '<', ' ', tick, tick, 'b', tick, tick]

/-- The same text with the middle `<` escaped, as the claim predicts. -/
def c6cexEscaped : List Char :=
  [tick, tick, 'a', tick, tick, ' ', '&', 'l', 't', ';', ' ', tick, tick, 'b', tick, tick]

/-- Input on which the sanitizer is not idempotent: escaping the first `<`
creates a new greedy double-backtick span in the second pass, which steals
the opener protecting the second `<`. -/
def c7cexInput : List Char :=
  [tick, tick, '<', tick, tick, '\n', '<', tick, tick]

/-- Commit carrying a breaking-change note with a `(#N)` reference. -/
def c9commit : ConventionalCommit :=
  { sha := "s", message := "feat: x", bareMessage := "x", type := "feat",
    scope := none,
    notes := [{ title := "BREAKING CHANGE", text := "old api (#42)" }],
    references := [], breaking := true }

/-- Options with host, owner and repository set. -/
def c9options : BuildNotesOptions :=
  { host := some "h", owner := "o", repository := "r" }

/-!
Helper lemmas.
-/

theorem isKeyClass_false_not_upper {c : Char} (h : isKeyClass c = false) :
    isUpperAZ c = false := by
  unfold isKeyClass at h
  exact (Bool.or_eq_false_iff.mp h).1

theorem takeWhile_all_append (p : Char → Bool) (l r : List Char)
    (hl : ∀ x ∈ l, p x = true) (hr : ∀ x, r.head? = some x → p x = false) :
    (l ++ r).takeWhile p = l := by
  induction l with
  | nil =>
    cases r with
    | nil => rfl
    | cons x t => simp [List.takeWhile_cons, hr x rfl]
  | cons a l ih =>
    have ha := hl a (by simp)
    simp only [List.cons_append, List.takeWhile_cons, ha, if_true]
    rw [ih (fun x hx => hl x (by simp [hx]))]

theorem dropWhile_all_append (p : Char → Bool) (l r : List Char)
    (hl : ∀ x ∈ l, p x = true) (hr : ∀ x, r.head? = some x → p x = false) :
    (l ++ r).dropWhile p = r := by
  induction l with
  | nil =>
    cases r with
    | nil => rfl
    | cons x t => simp [List.dropWhile_cons, hr x rfl]
  | cons a l ih =>
    have ha := hl a (by simp)
    simp only [List.cons_append, List.dropWhile_cons, ha, if_true]
    exact ih (fun x hx => hl x (by simp [hx]))

theorem filter_of_map {α β : Type} (f : α → β) (p : β → Bool) (l : List α) :
    (l.map f).filter p = (l.filter (fun a => p (f a))).map f := by
  induction l with
  | nil => rfl
  | cons a l ih =>
    by_cases h : p (f a) = true <;>
      simp [List.filter_cons, h, ih]

/-!
Claim C10: context host default.
-/

/-- C10: the `host` of the built context equals `options.host` when that is
a non-empty string and `https://github.com` otherwise; an empty string is
falsy in `options.host || DEFAULT_HOST` and falls back to the default. -/
theorem c10_theorem (o : BuildNotesOptions) (h : String) :
    (o.host = some h → h ≠ "" → (buildContext o).host = h) ∧
    ((o.host = some "" ∨ o.host = none) → (buildContext o).host = DEFAULT_HOST) := by
  constructor
  · intro h1 h2
    simp [buildContext, h1, h2]
  · rintro (h1 | h1) <;> simp [buildContext, h1]

/-- Witness for `c10_theorem` at `host := some "hh"` and `host := some ""`. -/
theorem c10_witness :
    (buildContext { host := some "hh" }).host = "hh" ∧
    (buildContext { host := some "" }).host = DEFAULT_HOST :=
  ⟨(c10_theorem { host := some "hh" } "hh").1 rfl (by decide),
   (c10_theorem { host := some "" } "").2 (Or.inl rfl)⟩

/-!
Claim C2: tracker-issue header decision.
-/

/-- C2 counterexample: with `trackerList = ["ABC"]` the commit headed
`XYZ-99: fix it` (key prefix `XYZ` not in the allow-list) is nevertheless
treated as a tracker-issue header: its type is forced to `others` and its
subject is the sanitized raw header line, not `bareMessage` - refuting the
only-if direction of the claim. -/
theorem c2_counterexample :
    (classifyCommit (buildContext c2options) c2options c2commit).type = "others" ∧
    (classifyCommit (buildContext c2options) c2options c2commit).subject = "XYZ-99: fix it" ∧
    (classifyCommit (buildContext c2options) c2options c2commit).type ≠ c2commit.type := by
  refine ⟨?_, ?_, ?_⟩ <;> decide

/-- C2 amended: the tracker-issue header decision uses the fixed pattern
`^(\[[A-Z][A-Z0-9]+-\d+\]|[A-Z][A-Z0-9]+-\d+):\s` regardless of the
configured `trackerList` (which only selects the keys rewritten into
links): the entry type is `others` exactly when this fixed pattern matches
the commit message, the subject is then the sanitized (and possibly
linkified) raw header line, otherwise the sanitized `bareMessage`, and the
decision is invariant under any change of `trackerList`. -/
theorem c2_amended (o : BuildNotesOptions) (c : ConventionalCommit)
    (L : Option (List String)) :
    ((classifyCommit (buildContext o) o c).type
        = if jiraHeaderTest c.message.data then "others" else c.type) ∧
    ((classifyCommit (buildContext o) o c).subject
        = applyTracker o (htmlEscape
            (if jiraHeaderTest c.message.data then c.message else c.bareMessage))) ∧
    ((classifyCommit (buildContext { o with trackerList := L })
        { o with trackerList := L } c).type
        = (classifyCommit (buildContext o) o c).type) :=
  ⟨rfl, rfl, rfl⟩

/-!
Claim C9: mutation of the input commits.
-/

/-- C9 counterexample: `buildNotes` does mutate its input: the text of the
breaking-change note of `c9commit` differs after the call (the aliased note
object was rewritten in place by `replaceIssueLink`). -/
theorem c9_counterexample :
    buildNotesPostCommits [c9commit] c9options ≠ [c9commit] ∧
    (buildNotesPostCommits [c9commit] c9options).map
        (fun c => c.notes.map (fun n => n.text))
      = [["old api ([#42](h/o/r/issues/42))"]] := by
  refine ⟨?_, ?_⟩ <;> decide

/-- C9 amended: the call mutates the input commits in exactly one place:
the text of every note titled `BREAKING CHANGE` is rewritten in place by
`replaceIssueLink`; every other commit field and every other note is
unchanged, and note titles are always preserved. -/
theorem c9_amended (o : BuildNotesOptions) (c : ConventionalCommit) :
    ((postCallCommit (buildContext o) c).sha = c.sha ∧
     (postCallCommit (buildContext o) c).message = c.message ∧
     (postCallCommit (buildContext o) c).bareMessage = c.bareMessage ∧
     (postCallCommit (buildContext o) c).type = c.type ∧
     (postCallCommit (buildContext o) c).scope = c.scope ∧
     (postCallCommit (buildContext o) c).references = c.references ∧
     (postCallCommit (buildContext o) c).breaking = c.breaking) ∧
    ((postCallCommit (buildContext o) c).notes
        = c.notes.map (postCallNote (buildContext o))) ∧
    (∀ n : Note, n.title ≠ "BREAKING CHANGE" → postCallNote (buildContext o) n = n) ∧
    (∀ n : Note, (postCallNote (buildContext o) n).title = n.title) ∧
    (∀ n : Note, n.title = "BREAKING CHANGE" →
        (postCallNote (buildContext o) n).text
          = replaceIssueText (buildContext o).host (buildContext o).owner
              (buildContext o).repository n.text) := by
  refine ⟨⟨rfl, rfl, rfl, rfl, rfl, rfl, rfl⟩, rfl, ?_, ?_, ?_⟩
  · intro n hn
    simp [postCallNote, hn]
  · intro n
    unfold postCallNote
    split <;> rfl
  · intro n hn
    simp [postCallNote, hn, replaceIssueLink]

/-- Witness for `c9_amended`: a non-breaking note is unchanged, and a
breaking-change note's text is rewritten by `replaceIssueText`. -/
theorem c9_amended_witness :
    ({ title := "note", text := "t (#1)" } : Note).title ≠ "BREAKING CHANGE" ∧
    postCallNote (buildContext c9options) { title := "note", text := "t (#1)" }
      = { title := "note", text := "t (#1)" } ∧
    (postCallNote (buildContext c9options)
        { title := "BREAKING CHANGE", text := "old api (#42)" }).text
      = replaceIssueText (buildContext c9options).host (buildContext c9options).owner
          (buildContext c9options).repository "old api (#42)" :=
  ⟨by decide,
   (c9_amended c9options c9commit).2.2.1 _ (by decide),
   (c9_amended c9options c9commit).2.2.2.2 _ (by decide)⟩

/-!
Claim C5: letterless raw commits.
-/

/-- C5 counterexample: the raw commit `1.2.3`, whose first line contains no
letters at all, is NOT excluded from the recovery pass: it yields an Others
entry (and hence a bullet in the final document). -/
theorem c5_counterexample :
    (rawRecovery c5options (seenShas [])).map (fun e => (e.subject, e.type, e.hash))
      = [("1.2.3", "others", "z1")] ∧
    changelogCommitsOf [] c5options ≠ [] := by
  refine ⟨?_, ?_⟩ <;> decide

/-- C5 amended: `default.ts` performs no letters check in its raw-commit
recovery pass: a raw commit whose first line contains no letters at all is
included (as an Others entry) whenever its sha is unseen and its first line
matches neither the conventional-header, the merge-header nor the
release-automation pattern. -/
theorem c5_amended (o : BuildNotesOptions) (raws : List RawCommit) (r : RawCommit)
    (commits : List ConventionalCommit)
    (hor : o.commits = some raws) (hr : r ∈ raws)
    (hseen : (seenShas commits).contains r.sha = false)
    (_hletters : ∀ x ∈ (firstLine r.message).data, isLetterAZ x = false)
    (hconv : convHeaderTest (firstLine r.message).data = false)
    (hmerge : mergeHeaderTest (firstLine r.message).data = false)
    (hrel : skipReleaseTest (firstLine r.message).data = false) :
    rawEntry o (firstLine r.message) r.sha ∈ changelogCommitsOf commits o ∧
    (rawEntry o (firstLine r.message) r.sha).type = "others" := by
  refine ⟨?_, rfl⟩
  unfold changelogCommitsOf
  refine List.mem_append_right _ ?_
  unfold rawRecovery
  rw [hor]
  refine List.mem_map_of_mem _ ?_
  rw [List.mem_filter]
  refine ⟨hr, ?_⟩
  have hmem : r.sha ∉ seenShas commits := by
    intro hm
    have helem := List.elem_eq_true_of_mem hm
    unfold List.contains at hseen
    rw [helem] at hseen
    cases hseen
  simp [includeRaw, hconv, hmerge, hrel, hseen, hmem]

/-- Witness for `c5_amended` at the letterless raw commit `1.2.3`. -/
theorem c5_amended_witness :
    rawEntry c5options (firstLine "1.2.3") "z1" ∈ changelogCommitsOf [] c5options ∧
    (rawEntry c5options (firstLine "1.2.3") "z1").type = "others" :=
  c5_amended c5options [{ sha := "z1", message := "1.2.3" }]
    { sha := "z1", message := "1.2.3" } [] rfl (by decide) (by decide)
    (by decide) (by decide) (by decide) (by decide)

/-!
Claim C1: uniqueness of commits in the final document.
-/

/-- C1 counterexample: with a visible Others section configured, the
Others-classified commit is rendered by the (spec-modelled) Section
Renderer AND appended a second time by the fallback assembler, whose
append is unconditional in `default.ts`; its subject hence occurs twice in
the final Markdown. -/
theorem c1_counterexample :
    2 ≤ countOcc (("ABC-9: add x").data) (buildNotesModelled [c1commit] c1options).data := by
  decide

/-- C1 amended: sha deduplication holds at the entry level: for any parsed
commit with a non-empty sha, the entries carrying that sha are exactly the
classified parsed commits carrying it - the raw-commit recovery pass skips
every sha already seen and contributes none; the fallback assembler,
however, appends every Others entry unconditionally (the counterexample),
so a commit rendered by the Section Renderer can appear twice. -/
theorem c1_amended (commits : List ConventionalCommit) (o : BuildNotesOptions)
    (c : ConventionalCommit) (hc : c ∈ commits) (hsha : c.sha ≠ "") :
    ((changelogCommitsOf commits o).filter (fun e => e.hash == c.sha)).length
      = (commits.filter (fun c' => c'.sha == c.sha)).length := by
  unfold changelogCommitsOf
  rw [List.filter_append, List.length_append]
  have hpred : (fun a : ConventionalCommit =>
      ((classifyCommit (buildContext o) o a).hash == c.sha)) = (fun c' => c'.sha == c.sha) := rfl
  have h1 : ((commits.map (classifyCommit (buildContext o) o)).filter
        (fun e => e.hash == c.sha))
      = (commits.filter (fun c' => c'.sha == c.sha)).map
          (classifyCommit (buildContext o) o) := by
    rw [filter_of_map, hpred]
  have h2 : ((rawRecovery o (seenShas commits)).filter (fun e => e.hash == c.sha)) = [] := by
    rw [List.filter_eq_nil_iff]
    intro e he
    unfold rawRecovery at he
    cases horaw : o.commits with
    | none =>
      rw [horaw] at he
      simp at he
    | some raws =>
      rw [horaw] at he
      obtain ⟨r, hrmem, rfl⟩ := List.mem_map.mp he
      obtain ⟨hrraws, hq⟩ := List.mem_filter.mp hrmem
      rw [Bool.and_eq_true] at hq
      have hnot : (seenShas commits).contains r.sha = false := by
        have hq1 := hq.1
        simpa using hq1
      have hcin : c.sha ∈ seenShas commits := by
        unfold seenShas
        exact List.mem_map_of_mem _ (List.mem_filter.mpr ⟨hc, by simp [hsha]⟩)
      simp only [rawEntry, beq_iff_eq]
      intro heq
      rw [heq] at hnot
      have helem := List.elem_eq_true_of_mem hcin
      unfold List.contains at hnot
      rw [helem] at hnot
      cases hnot
  rw [h1, h2]
  simp

/-- Witness for `c1_amended`: one parsed commit with sha `s1` and a raw
list containing `s1` and `s2`; the entries with hash `s1` number exactly
one. -/
theorem c1_amended_witness :
    c1wCommit ∈ [c1wCommit] ∧ c1wCommit.sha ≠ "" ∧
    ((changelogCommitsOf [c1wCommit] c1wOptions).filter
        (fun e => e.hash == c1wCommit.sha)).length
      = ([c1wCommit].filter (fun c' => c'.sha == c1wCommit.sha)).length :=
  ⟨by decide, by decide,
   c1_amended [c1wCommit] c1wOptions c1wCommit (by decide) (by decide)⟩

/-!
Claim C8: breaking-change notes and first-occurrence issue-link rewriting.
-/

theorem riGo_cons (h o r : List Char) (c : Char) (rest : List Char) :
    riGo h o r (c :: rest)
      = (match riMatchAt (c :: rest) with
         | some p => issueLinkRepl h o r p.1 ++ p.2
         | none => c :: riGo h o r rest) := rfl

theorem goClose_cons (c : Char) (t : List Char) :
    goClose (c :: t)
      = (match (if isDotChar c then (goClose t).map (fun p => (c :: p.1, p.2)) else none) with
         | some x => some x
         | none => closerAt (c :: t)) := rfl

theorem riMatchAt_cons_ne (c : Char) (t : List Char) (hc : c ≠ '(') :
    riMatchAt (c :: t) = none := by
  cases t with
  | nil => rfl
  | cons c2 t2 => simp [riMatchAt, hc]

theorem riGo_append_first (h o r p d s : List Char)
    (hp : ∀ x ∈ p, x ≠ '(') (hd : d ≠ []) (hdall : ∀ x ∈ d, isDigit09 x = true) :
    riGo h o r (p ++ '(' :: '#' :: (d ++ ')' :: s))
      = p ++ (issueLinkRepl h o r d ++ s) := by
  induction p with
  | nil =>
    have hm : riMatchAt ('(' :: '#' :: (d ++ ')' :: s)) = some (d, s) := by
      cases d with
      | nil => cases hd rfl
      | cons d0 ds =>
        have ht : ((d0 :: ds) ++ ')' :: s).takeWhile isDigit09 = d0 :: ds :=
          takeWhile_all_append _ _ _ hdall (fun x hx => by
            simp at hx
            subst hx
            decide)
        have hdp : ((d0 :: ds) ++ ')' :: s).dropWhile isDigit09 = ')' :: s :=
          dropWhile_all_append _ _ _ hdall (fun x hx => by
            simp at hx
            subst hx
            decide)
        simp only [List.cons_append] at ht hdp
        simp [riMatchAt, ht, hdp]
    show riGo h o r ('(' :: '#' :: (d ++ ')' :: s)) = _
    rw [riGo_cons, hm]
    rfl
  | cons a p ih =>
    have ha : riMatchAt (a :: (p ++ '(' :: '#' :: (d ++ ')' :: s))) = none :=
      riMatchAt_cons_ne _ _ (hp a (by simp))
    show riGo h o r (a :: (p ++ '(' :: '#' :: (d ++ ')' :: s))) = _
    rw [riGo_cons, ha, ih (fun x hx => hp x (by simp [hx]))]
    rfl

/-- C8: exactly the notes titled `BREAKING CHANGE` are kept in the
classified entry's notes (each rewritten by `replaceIssueLink`), and the
rewriting replaces only the first `(#N)` occurrence: for a prefix `p`
containing no `(` and a non-empty digit string `d`, the text
`p ++ "(#d)" ++ s` becomes `p ++ "([#d](host/owner/repo/issues/d))" ++ s`
with the suffix `s` (and so any later `(#N)` occurrence) untouched. -/
theorem c8_theorem (ctx : BuildContext) (o : BuildNotesOptions) (c : ConventionalCommit)
    (host owner repo p d s : String)
    (hp : ∀ x ∈ p.data, x ≠ '(') (hd : d.data ≠ [])
    (hdall : ∀ x ∈ d.data, isDigit09 x = true) :
    ((classifyCommit ctx o c).notes
        = (c.notes.filter (fun n => n.title == "BREAKING CHANGE")).map
            (replaceIssueLink ctx.host ctx.owner ctx.repository)) ∧
    replaceIssueText host owner repo (p ++ "(#" ++ d ++ ")" ++ s)
      = p ++ "([#" ++ d ++ "](" ++ host ++ "/" ++ owner ++ "/" ++ repo ++
          "/issues/" ++ d ++ "))" ++ s := by
  refine ⟨rfl, ?_⟩
  have hlist := riGo_append_first host.data owner.data repo.data p.data d.data s.data
    hp hd hdall
  apply String.ext
  show riGo host.data owner.data repo.data (p ++ "(#" ++ d ++ ")" ++ s).data = _
  have harg : (p ++ "(#" ++ d ++ ")" ++ s).data
      = p.data ++ '(' :: '#' :: (d.data ++ ')' :: s.data) := by
    simp [String.data_append]
  rw [harg, hlist]
  simp [issueLinkRepl, String.data_append]

/-- Witness for `c8_theorem`: the breaking-change note text
`old api removed (#42) and (#43)` has only its first reference rewritten. -/
theorem c8_witness :
    (∀ x ∈ ("old api removed ").data, x ≠ '(') ∧
    ((classifyCommit (buildContext c9options) c9options c9commit).notes
        = (c9commit.notes.filter (fun n => n.title == "BREAKING CHANGE")).map
            (replaceIssueLink (buildContext c9options).host (buildContext c9options).owner
              (buildContext c9options).repository)) ∧
    replaceIssueText "h" "o" "r" ("old api removed " ++ "(#" ++ "42" ++ ")" ++ " and (#43)")
      = "old api removed " ++ "([#" ++ "42" ++ "](" ++ "h" ++ "/" ++ "o" ++ "/" ++ "r" ++
          "/issues/" ++ "42" ++ "))" ++ " and (#43)" :=
  ⟨by decide,
   (c8_theorem (buildContext c9options) c9options c9commit "h" "o" "r"
      "old api removed " "42" " and (#43)" (by decide) (by decide) (by decide)).1,
   (c8_theorem (buildContext c9options) c9options c9commit "h" "o" "r"
      "old api removed " "42" " and (#43)" (by decide) (by decide) (by decide)).2⟩

/-!
Claim C6: sanitizer code-span boundaries.
-/

theorem closerAt_tick (l : List Char) : closerAt (tick :: l) = none := by
  rcases l with _ | ⟨a, l⟩
  · rfl
  rcases l with _ | ⟨b, l⟩
  · rfl
  · simp [closerAt]

theorem goClose_tick_none {r : List Char} (h : goClose r = none) :
    goClose (tick :: r) = none := by
  have hdt : isDotChar tick = true := by decide
  simp only [goClose, hdt, if_true]
  rw [h]
  simp [closerAt_tick]

theorem goClose_extend (m : List Char) (y : Char) (r : List Char)
    (hm : ∀ x ∈ m, isDotChar x = true) (hy : y ≠ tick)
    (hr : isDotChar y = false ∨ goClose r = none) :
    goClose (m ++ y :: tick :: tick :: r) = some (m ++ [y, tick, tick], r) := by
  induction m with
  | nil =>
    show goClose (y :: tick :: tick :: r) = some ([y, tick, tick], r)
    have hfar : (if isDotChar y
        then (goClose (tick :: tick :: r)).map (fun p => (y :: p.1, p.2)) else none)
        = none := by
      rcases hr with hr | hr
      · simp [hr]
      · rw [goClose_tick_none (goClose_tick_none hr)]
        simp
    rw [goClose_cons, hfar]
    simp [closerAt, hy]
  | cons c m ih =>
    have hdc : isDotChar c = true := hm c (by simp)
    have hrec := ih (fun x hx => hm x (by simp [hx]))
    show goClose (c :: (m ++ y :: tick :: tick :: r)) = _
    rw [goClose_cons, hdc]
    simp only [if_true]
    rw [hrec]
    simp

theorem escGo_alt1 (f : Nat) (l s t : List Char) (h : matchAlt1 l = some (s, t))
    (hl : l ≠ []) :
    escGo (f + 1) l = s ++ escGo f t := by
  cases l with
  | nil => cases hl rfl
  | cons c rest => simp [escGo, h]

theorem htmlEscapeL_of_alt1_full (l : List Char) (h : matchAlt1 l = some (l, [])) :
    htmlEscapeL l = l := by
  cases l with
  | nil => rfl
  | cons c rest =>
    show escGo (rest.length + 1) (c :: rest) = c :: rest
    rw [escGo_alt1 _ _ _ _ h (by simp)]
    simp [escGo]

/-- C6 counterexample: in `` ``a`` < ``b`` `` the greedy `.*` of the
double-backtick alternative spans from the first opener to the last closer,
so the whole text is one code span and the bare `<` between the two
apparent spans is NOT escaped - the sanitizer returns the input unchanged,
refuting the claim that the `<` is escaped. -/
theorem c6_counterexample :
    htmlEscapeL c6cexInput = c6cexInput ∧ htmlEscapeL c6cexInput ≠ c6cexEscaped := by
  refine ⟨?_, ?_⟩ <;> decide

/-- C6 amended: bare `<` and `>` are escaped except inside code spans, but
a double-backtick span is matched greedily and may extend across later
backtick boundaries: any text `` ``a0 a1`` b ``c1 y`` `` whose characters
are all `.`-characters (with the mandatory inner edge characters not
backticks) is matched as ONE span and returned entirely unchanged - in
particular a bare `<` or `>` between the two double-backtick groups is not
escaped. -/
theorem c6_amended (a0 y : Char) (a1 b c1 : List Char)
    (ha0 : a0 ≠ tick) (hy : y ≠ tick)
    (ha1 : ∀ x ∈ a1, isDotChar x = true)
    (hb : ∀ x ∈ b, isDotChar x = true)
    (hc1 : ∀ x ∈ c1, isDotChar x = true) :
    htmlEscapeL (tick :: tick :: a0 ::
        (a1 ++ tick :: tick :: (b ++ tick :: tick :: (c1 ++ [y, tick, tick]))))
      = tick :: tick :: a0 ::
        (a1 ++ tick :: tick :: (b ++ tick :: tick :: (c1 ++ [y, tick, tick]))) := by
  have hdt : isDotChar tick = true := by decide
  have hM : ∀ x ∈ (a1 ++ tick :: tick :: (b ++ tick :: tick :: c1)), isDotChar x = true := by
    intro x hx
    simp only [List.mem_append, List.mem_cons] at hx
    rcases hx with hx | hx | hx | hx
    · exact ha1 x hx
    · rw [hx]; exact hdt
    · rw [hx]; exact hdt
    rcases hx with hx | hx | hx
    · exact hb x hx
    · rw [hx]; exact hdt
    rcases hx with hx | hx
    · rw [hx]; exact hdt
    · exact hc1 x hx
  have hassoc : (a1 ++ tick :: tick :: (b ++ tick :: tick :: c1)) ++ y :: tick :: tick :: ([] : List Char)
      = a1 ++ tick :: tick :: (b ++ tick :: tick :: (c1 ++ [y, tick, tick])) := by
    simp
  have hgo := goClose_extend (a1 ++ tick :: tick :: (b ++ tick :: tick :: c1)) y []
    hM hy (Or.inr rfl)
  rw [hassoc] at hgo
  apply htmlEscapeL_of_alt1_full
  simp only [matchAlt1]
  rw [hgo]
  simp [ha0]

/-- Witness for `c6_amended` at `` ``a`` < ``b`` ``: the bare `<` between
the two spans survives sanitization. -/
theorem c6_amended_witness :
    ('<' ∈ ([' ', '<', ' '] : List Char)) ∧
    htmlEscapeL (tick :: tick :: 'a' ::
        (([] : List Char) ++ tick :: tick ::
          (([' ', '<', ' '] : List Char) ++ tick :: tick :: (([] : List Char) ++ ['b', tick, tick]))))
      = tick :: tick :: 'a' ::
        (([] : List Char) ++ tick :: tick ::
          (([' ', '<', ' '] : List Char) ++ tick :: tick :: (([] : List Char) ++ ['b', tick, tick]))) :=
  ⟨by decide,
   c6_amended 'a' 'b' [] [' ', '<', ' '] [] (by decide) (by decide) (by decide)
     (by decide) (by decide)⟩

/-!
Claim C7: sanitizer idempotence.
-/

theorem matchAlt1_ne (x : Char) (r : List Char) (hx : x ≠ tick) :
    matchAlt1 (x :: r) = none := by
  rcases r with _ | ⟨b, r⟩
  · rfl
  rcases r with _ | ⟨c, r⟩
  · rfl
  · simp [matchAlt1, hx]

theorem matchAlt2_ne (x : Char) (r : List Char) (hx : x ≠ tick) :
    matchAlt2 (x :: r) = none := by
  simp [matchAlt2, hx]

theorem escGo_no_special (f : Nat) (l : List Char)
    (h : ∀ c ∈ l, c ≠ tick ∧ c ≠ '<' ∧ c ≠ '>') : escGo f l = l := by
  induction f generalizing l with
  | zero => cases l <;> rfl
  | succ f ih =>
    cases l with
    | nil => rfl
    | cons c rest =>
      obtain ⟨hc1, hc2, hc3⟩ := h c (by simp)
      rw [show escGo (f + 1) (c :: rest)
          = (match matchAlt1 (c :: rest) with
             | some p => p.1 ++ escGo f p.2
             | none =>
               match matchAlt2 (c :: rest) with
               | some p => p.1 ++ escGo f p.2
               | none =>
                 if c = '<' then '&' :: 'l' :: 't' :: ';' :: escGo f rest
                 else if c = '>' then '&' :: 'g' :: 't' :: ';' :: escGo f rest
                 else c :: escGo f rest) from rfl]
      rw [matchAlt1_ne c rest hc1, matchAlt2_ne c rest hc1]
      simp only [hc2, hc3, if_false]
      rw [ih rest (fun x hx => h x (by simp [hx]))]

theorem escGo_tickless_mem (f : Nat) (l : List Char) (hf : l.length ≤ f)
    (h : ∀ c ∈ l, c ≠ tick) :
    ∀ x ∈ escGo f l, x ≠ tick ∧ x ≠ '<' ∧ x ≠ '>' := by
  induction f generalizing l with
  | zero =>
    cases l with
    | nil => intro x hx; cases hx
    | cons c rest => simp at hf
  | succ f ih =>
    cases l with
    | nil => intro x hx; cases hx
    | cons c rest =>
      have hc := h c (by simp)
      have hrest : ∀ x ∈ rest, x ≠ tick := fun x hx => h x (by simp [hx])
      have hlen : rest.length ≤ f := by simpa using hf
      rw [show escGo (f + 1) (c :: rest)
          = (match matchAlt1 (c :: rest) with
             | some p => p.1 ++ escGo f p.2
             | none =>
               match matchAlt2 (c :: rest) with
               | some p => p.1 ++ escGo f p.2
               | none =>
                 if c = '<' then '&' :: 'l' :: 't' :: ';' :: escGo f rest
                 else if c = '>' then '&' :: 'g' :: 't' :: ';' :: escGo f rest
                 else c :: escGo f rest) from rfl]
      rw [matchAlt1_ne c rest hc, matchAlt2_ne c rest hc]
      by_cases h2 : c = '<'
      · subst h2
        simp only [if_true]
        intro x hx
        simp only [List.mem_cons] at hx
        rcases hx with rfl | rfl | rfl | rfl | hx
        · exact ⟨by decide, by decide, by decide⟩
        · exact ⟨by decide, by decide, by decide⟩
        · exact ⟨by decide, by decide, by decide⟩
        · exact ⟨by decide, by decide, by decide⟩
        · exact ih rest hlen hrest x hx
      by_cases h3 : c = '>'
      · subst h3
        simp only [h2, if_false, if_true]
        intro x hx
        simp only [List.mem_cons] at hx
        rcases hx with rfl | rfl | rfl | rfl | hx
        · exact ⟨by decide, by decide, by decide⟩
        · exact ⟨by decide, by decide, by decide⟩
        · exact ⟨by decide, by decide, by decide⟩
        · exact ⟨by decide, by decide, by decide⟩
        · exact ih rest hlen hrest x hx
      · simp only [h2, h3, if_false]
        intro x hx
        simp only [List.mem_cons] at hx
        rcases hx with rfl | hx
        · exact ⟨hc, h2, h3⟩
        · exact ih rest hlen hrest x hx

/-- C7 counterexample: the sanitizer is not idempotent: on
`` ``<``<newline><`` `` the first pass escapes the first `<`, and the
escaped `&lt;` forms a new greedy double-backtick span in the second pass,
which steals the opener protecting the second `<`; the second pass thus
differs from the first. -/
theorem c7_counterexample :
    htmlEscapeL (htmlEscapeL c7cexInput) ≠ htmlEscapeL c7cexInput := by
  decide

/-- C7 amended: the sanitizer is idempotent on backtick-free inputs (where
escaping cannot create or destroy code spans); full idempotence fails, as
the counterexample shows, because escaping a `<` can create a new greedy
double-backtick span on the second pass. -/
theorem c7_amended (l : List Char) (h : ∀ c ∈ l, c ≠ tick) :
    htmlEscapeL (htmlEscapeL l) = htmlEscapeL l := by
  unfold htmlEscapeL
  exact escGo_no_special _ _ (escGo_tickless_mem l.length l (le_refl _) h)

/-- Witness for `c7_amended` on the backtick-free input `a<b`. -/
theorem c7_amended_witness :
    (∀ c ∈ (['a', '<', 'b'] : List Char), c ≠ tick) ∧
    htmlEscapeL (htmlEscapeL ['a', '<', 'b']) = htmlEscapeL ['a', '<', 'b'] :=
  ⟨by decide, c7_amended ['a', '<', 'b'] (by decide)⟩

/-!
Claims C3 and C4: the issue-key linkifier.
-/

theorem matchKey_none (l : List Char) : matchKey none l = matchKeyDefault l := rfl

theorem lkGo_nil (cfg : Option (List (List Char))) (url : List Char) (f : Nat) (b : Bool) :
    lkGo cfg url f b [] = [] := by
  cases f <;> rfl

theorem lkGo_cons (cfg : Option (List (List Char))) (url : List Char) (f : Nat)
    (b : Bool) (c : Char) (rest : List Char) :
    lkGo cfg url (f + 1) b (c :: rest)
      = (match (if b then matchKey cfg (c :: rest) else none) with
         | some p => linkWrap url p.1 ++ lkGo cfg url f false p.2
         | none =>
           if isKeyClass c then c :: lkGo cfg url f false rest
           else
             match matchKey cfg rest with
             | some p => c :: (linkWrap url p.1 ++ lkGo cfg url f false p.2)
             | none => c :: lkGo cfg url f false rest) := rfl

theorem lkGo_step_start (cfg : Option (List (List Char))) (url : List Char) (f : Nat)
    (c : Char) (rest key tail : List Char)
    (h : matchKey cfg (c :: rest) = some (key, tail)) :
    lkGo cfg url (f + 1) true (c :: rest)
      = linkWrap url key ++ lkGo cfg url f false tail := by
  rw [lkGo_cons]
  simp [h]

theorem lkGo_step_sep (cfg : Option (List (List Char))) (url : List Char) (f : Nat)
    (b : Bool) (c : Char) (rest key tail : List Char)
    (hb : (if b then matchKey cfg (c :: rest) else none) = none)
    (hc : isKeyClass c = false)
    (h : matchKey cfg rest = some (key, tail)) :
    lkGo cfg url (f + 1) b (c :: rest)
      = c :: (linkWrap url key ++ lkGo cfg url f false tail) := by
  rw [lkGo_cons, hb]
  simp [hc, h]

theorem lkGo_step_skip (cfg : Option (List (List Char))) (url : List Char) (f : Nat)
    (b : Bool) (c : Char) (rest : List Char)
    (hb : (if b then matchKey cfg (c :: rest) else none) = none)
    (h2 : isKeyClass c = true ∨ matchKey cfg rest = none) :
    lkGo cfg url (f + 1) b (c :: rest) = c :: lkGo cfg url f false rest := by
  rw [lkGo_cons, hb]
  rcases h2 with h2 | h2
  · simp [h2]
  · by_cases hc : isKeyClass c <;> simp [hc, h2]

theorem matchKeyDefault_not_upper (c : Char) (rest : List Char)
    (hc : isUpperAZ c = false) : matchKeyDefault (c :: rest) = none := by
  simp [matchKeyDefault, hc]

theorem digit_not_upper {c : Char} (h : isDigit09 c = true) : isUpperAZ c = false := by
  have h9 : c ≤ '9' := by
    unfold isDigit09 at h
    rw [Bool.and_eq_true] at h
    exact of_decide_eq_true h.2
  unfold isUpperAZ
  cases hca : (decide ('A' ≤ c)) with
  | false => simp [hca]
  | true =>
    have hA : 'A' ≤ c := of_decide_eq_true hca
    have hcon : ('A' : Char) ≤ '9' := le_trans hA h9
    exact absurd hcon (by decide)

theorem matchKeyDefault_ABC (d s : List Char) (hd : d ≠ [])
    (hdall : ∀ x ∈ d, isDigit09 x = true)
    (hs : ∀ x, s.head? = some x → isDigit09 x = false) :
    matchKeyDefault ('A' :: 'B' :: 'C' :: '-' :: (d ++ s))
      = some ('A' :: 'B' :: 'C' :: '-' :: d, s) := by
  cases d with
  | nil => cases hd rfl
  | cons d0 ds =>
    have hup : isUpperAZ 'A' = true := by decide
    have h1 : List.takeWhile isKeyClass ('B' :: 'C' :: '-' :: ((d0 :: ds) ++ s))
        = ['B', 'C'] := rfl
    have h2 : List.dropWhile isKeyClass ('B' :: 'C' :: '-' :: ((d0 :: ds) ++ s))
        = '-' :: ((d0 :: ds) ++ s) := rfl
    have ht : ((d0 :: ds) ++ s).takeWhile isDigit09 = d0 :: ds :=
      takeWhile_all_append _ _ _ hdall hs
    have hdp : ((d0 :: ds) ++ s).dropWhile isDigit09 = s :=
      dropWhile_all_append _ _ _ hdall hs
    simp only [List.cons_append] at h1 h2 ht hdp
    simp [matchKeyDefault, hup, h1, h2, ht, hdp]

theorem lkGo_digits (url : List Char) (d : List Char) (f : Nat)
    (hall : ∀ x ∈ d, isDigit09 x = true) :
    lkGo none url f false d = d := by
  induction d generalizing f with
  | nil => exact lkGo_nil none url f false
  | cons x t ih =>
    cases f with
    | zero => rfl
    | succ f =>
      have hx : isDigit09 x = true := hall x (by simp)
      have hkc : isKeyClass x = true := by simp [isKeyClass, hx]
      rw [lkGo_step_skip none url f false x t rfl (Or.inl hkc)]
      rw [ih f (fun y hy => hall y (by simp [hy]))]

/-- The first pass on a bare key `ABC-d` wraps it (via the `^` alternative,
with no separator consumed). -/
theorem linkifyL_key (url d : List Char) (hd : d ≠ [])
    (hdall : ∀ x ∈ d, isDigit09 x = true) :
    linkifyL none url ('A' :: 'B' :: 'C' :: '-' :: d)
      = linkWrap url ('A' :: 'B' :: 'C' :: '-' :: d) := by
  have hK0 := matchKeyDefault_ABC d [] hd hdall (fun x hx => by simp at hx)
  rw [List.append_nil] at hK0
  have hK : matchKey none ('A' :: 'B' :: 'C' :: '-' :: d)
      = some ('A' :: 'B' :: 'C' :: '-' :: d, []) := (matchKey_none _).trans hK0
  show lkGo none url (('B' :: 'C' :: '-' :: d).length + 1) true
      ('A' :: 'B' :: 'C' :: '-' :: d) = _
  rw [lkGo_step_start none url _ 'A' ('B' :: 'C' :: '-' :: d) _ _ hK]
  rw [lkGo_nil]
  simp

/-- C3 counterexample: the key `ABC-1` directly preceded by the lowercase
letter `x` IS replaced (lowercase letters are in `[^A-Z0-9]` and act as
separators), refuting the claim that a key preceded by an alphanumeric
character is never replaced. -/
theorem c3_counterexample :
    linkify none "u/" "xABC-1" ≠ "xABC-1" ∧
    linkify none "u/" "xABC-1" = "x[ABC-1](u/ABC-1)" := by
  refine ⟨?_, ?_⟩ <;> decide

/-- C3 amended: a key occurrence is replaced exactly when it is not
immediately preceded by an UPPERCASE letter or digit: a key preceded by
any `[^A-Z0-9]` character - lowercase letters included - is replaced with
its one-character separator kept unchanged, a key preceded by a digit is
not replaced, and a key at the start of the text is replaced with no
separator. -/
theorem c3_amended (url : List Char) (c cd : Char) (d : List Char)
    (hc : isKeyClass c = false) (hcd : isDigit09 cd = true)
    (hd : d ≠ []) (hdall : ∀ x ∈ d, isDigit09 x = true) :
    (linkifyL none url (c :: ('A' :: 'B' :: 'C' :: '-' :: d))
        = c :: (linkWrap url ('A' :: 'B' :: 'C' :: '-' :: d))) ∧
    (linkifyL none url (cd :: ('A' :: 'B' :: 'C' :: '-' :: d))
        = cd :: ('A' :: 'B' :: 'C' :: '-' :: d)) ∧
    (linkifyL none url ('A' :: 'B' :: 'C' :: '-' :: d)
        = linkWrap url ('A' :: 'B' :: 'C' :: '-' :: d)) := by
  have hK0 := matchKeyDefault_ABC d [] hd hdall (fun x hx => by simp at hx)
  rw [List.append_nil] at hK0
  have hK : matchKey none ('A' :: 'B' :: 'C' :: '-' :: d)
      = some ('A' :: 'B' :: 'C' :: '-' :: d, []) := (matchKey_none _).trans hK0
  refine ⟨?_, ?_, linkifyL_key url d hd hdall⟩
  · have hne : matchKey none (c :: ('A' :: 'B' :: 'C' :: '-' :: d)) = none :=
      (matchKey_none _).trans
        (matchKeyDefault_not_upper c _ (isKeyClass_false_not_upper hc))
    show lkGo none url (('A' :: 'B' :: 'C' :: '-' :: d).length + 1) true
        (c :: ('A' :: 'B' :: 'C' :: '-' :: d)) = _
    rw [lkGo_step_sep none url _ true c ('A' :: 'B' :: 'C' :: '-' :: d) _ _
      (by simp [hne]) hc hK]
    rw [lkGo_nil]
    simp
  · have hne : matchKey none (cd :: ('A' :: 'B' :: 'C' :: '-' :: d)) = none :=
      (matchKey_none _).trans (matchKeyDefault_not_upper cd _ (digit_not_upper hcd))
    have hkcd : isKeyClass cd = true := by simp [isKeyClass, hcd]
    show lkGo none url (('A' :: 'B' :: 'C' :: '-' :: d).length + 1) true
        (cd :: ('A' :: 'B' :: 'C' :: '-' :: d)) = _
    rw [lkGo_step_skip none url _ true cd ('A' :: 'B' :: 'C' :: '-' :: d)
      (by simp [hne]) (Or.inl hkcd)]
    show cd :: lkGo none url (('B' :: 'C' :: '-' :: d).length + 1) false
        ('A' :: 'B' :: 'C' :: '-' :: d) = _
    rw [lkGo_step_skip none url _ false 'A' ('B' :: 'C' :: '-' :: d) rfl
      (Or.inl (by decide))]
    show cd :: 'A' :: lkGo none url (('C' :: '-' :: d).length + 1) false
        ('B' :: 'C' :: '-' :: d) = _
    rw [lkGo_step_skip none url _ false 'B' ('C' :: '-' :: d) rfl
      (Or.inl (by decide))]
    show cd :: 'A' :: 'B' :: lkGo none url (('-' :: d).length + 1) false
        ('C' :: '-' :: d) = _
    rw [lkGo_step_skip none url _ false 'C' ('-' :: d) rfl
      (Or.inl (by decide))]
    have hdash : matchKey none d = none := by
      rw [matchKey_none]
      cases d with
      | nil => rfl
      | cons d0 ds =>
        exact matchKeyDefault_not_upper d0 ds (digit_not_upper (hdall d0 (by simp)))
    show cd :: 'A' :: 'B' :: 'C' :: lkGo none url (d.length + 1) false ('-' :: d) = _
    rw [lkGo_step_skip none url _ false '-' d rfl (Or.inr hdash)]
    rw [lkGo_digits url d _ hdall]

/-- Witness for `c3_amended` at separator `x`, digit `5`, key `ABC-1` and
url `u/`. -/
theorem c3_amended_witness :
    isKeyClass 'x' = false ∧ isDigit09 '5' = true ∧
    linkifyL none ("u/").data ('x' :: ('A' :: 'B' :: 'C' :: '-' :: ['1']))
      = 'x' :: (linkWrap ("u/").data ('A' :: 'B' :: 'C' :: '-' :: ['1'])) ∧
    linkifyL none ("u/").data ('5' :: ('A' :: 'B' :: 'C' :: '-' :: ['1']))
      = '5' :: ('A' :: 'B' :: 'C' :: '-' :: ['1']) :=
  ⟨by decide, by decide,
   (c3_amended ("u/").data 'x' '5' ['1'] (by decide) (by decide) (by decide)
     (by decide)).1,
   (c3_amended ("u/").data 'x' '5' ['1'] (by decide) (by decide) (by decide)
     (by decide)).2.1⟩

theorem lkGo_run_end (url : List Char) (F : Nat) :
    lkGo none url F false [')'] = [')'] := by
  cases F with
  | zero => rfl
  | succ F =>
    rw [lkGo_step_skip none url F false ')' [] rfl (Or.inr rfl)]
    rw [lkGo_nil]

theorem lkGo_sep_run (url K : List Char)
    (hK : matchKeyDefault (K ++ [')']) = some (K, [')'])) :
    ∀ (U : List Char) (F : Nat), U ≠ [] → (∀ x ∈ U, isKeyClass x = false) →
      U.length + 1 ≤ F →
      lkGo none url F false (U ++ (K ++ [')'])) = U ++ (linkWrap url K ++ [')']) := by
  intro U
  induction U with
  | nil => intro F h1 _ _; cases h1 rfl
  | cons u U ih =>
    intro F hne hU hF
    have hu : isKeyClass u = false := hU u (by simp)
    cases U with
    | nil =>
      cases F with
      | zero => omega
      | succ F =>
        show lkGo none url (F + 1) false (u :: (K ++ [')'])) = _
        rw [lkGo_step_sep none url F false u (K ++ [')']) K [')'] rfl hu
          ((matchKey_none _).trans hK)]
        rw [lkGo_run_end]
        simp
    | cons u2 U2 =>
      cases F with
      | zero => omega
      | succ F =>
        have hnext : matchKey none ((u2 :: U2) ++ (K ++ [')'])) = none :=
          (matchKey_none _).trans (matchKeyDefault_not_upper u2 _
            (isKeyClass_false_not_upper (hU u2 (by simp))))
        show lkGo none url (F + 1) false (u :: ((u2 :: U2) ++ (K ++ [')']))) = _
        rw [lkGo_step_skip none url F false u ((u2 :: U2) ++ (K ++ [')'])) rfl
          (Or.inr hnext)]
        rw [ih F (by simp) (fun x hx => hU x (by simp [hx])) (by simp at hF ⊢; omega)]
        simp

/-- C4 counterexample: re-running the linkifier on its own output wraps the
key a second time (the `[` and the `/` of the URL act as fresh separators),
so the rewriting is not idempotent. -/
theorem c4_counterexample :
    linkify none "u/" (linkify none "u/" "ABC-12") ≠ linkify none "u/" "ABC-12" ∧
    linkify none "u/" (linkify none "u/" "ABC-12")
      = "[[ABC-12](u/ABC-12)](u/[ABC-12](u/ABC-12))" := by
  refine ⟨?_, ?_⟩ <;> decide

theorem lk_pass2 (U d : List Char) (hUne : U ≠ [])
    (hU : ∀ x ∈ U, isKeyClass x = false)
    (hd : d ≠ []) (hdall : ∀ x ∈ d, isDigit09 x = true) :
    ∀ F : Nat, U.length + 4 ≤ F →
    lkGo none U F true
        ('[' :: ('A' :: 'B' :: 'C' :: '-' :: (d ++ (']' :: '(' ::
          (U ++ ('A' :: 'B' :: 'C' :: '-' :: (d ++ [')'])))))))
      = '[' :: (linkWrap U ('A' :: 'B' :: 'C' :: '-' :: d) ++
          ']' :: '(' :: (U ++ (linkWrap U ('A' :: 'B' :: 'C' :: '-' :: d) ++ [')']))) := by
  intro F hF
  obtain ⟨F3, rfl⟩ : ∃ F3, F = F3 + 3 := ⟨F - 3, by omega⟩
  have hMstart : matchKey none ('[' :: ('A' :: 'B' :: 'C' :: '-' ::
      (d ++ (']' :: '(' :: (U ++ ('A' :: 'B' :: 'C' :: '-' :: (d ++ [')'])))))))
      = none :=
    (matchKey_none _).trans (matchKeyDefault_not_upper '[' _ (by decide))
  have hMsep : matchKey none ('A' :: 'B' :: 'C' :: '-' :: (d ++ (']' :: '(' ::
      (U ++ ('A' :: 'B' :: 'C' :: '-' :: (d ++ [')']))))))
      = some ('A' :: 'B' :: 'C' :: '-' :: d,
          ']' :: '(' :: (U ++ ('A' :: 'B' :: 'C' :: '-' :: (d ++ [')'])))) := by
    rw [matchKey_none]
    exact matchKeyDefault_ABC d _ hd hdall (fun x hx => by simp at hx; subst hx; decide)
  rw [lkGo_step_sep none U (F3 + 2) true '['
    ('A' :: 'B' :: 'C' :: '-' :: (d ++ (']' :: '(' ::
      (U ++ ('A' :: 'B' :: 'C' :: '-' :: (d ++ [')']))))))
    ('A' :: 'B' :: 'C' :: '-' :: d)
    (']' :: '(' :: (U ++ ('A' :: 'B' :: 'C' :: '-' :: (d ++ [')']))))
    (by simp [hMstart]) (by decide) hMsep]
  have hparen : matchKey none ('(' :: (U ++ ('A' :: 'B' :: 'C' :: '-' :: (d ++ [')']))))
      = none :=
    (matchKey_none _).trans (matchKeyDefault_not_upper '(' _ (by decide))
  rw [lkGo_step_skip none U (F3 + 1) false ']'
    ('(' :: (U ++ ('A' :: 'B' :: 'C' :: '-' :: (d ++ [')'])))) rfl (Or.inr hparen)]
  have hUhead : matchKey none (U ++ ('A' :: 'B' :: 'C' :: '-' :: (d ++ [')']))) = none := by
    rw [matchKey_none]
    cases U with
    | nil => cases hUne rfl
    | cons u U2 =>
      exact matchKeyDefault_not_upper u _
        (isKeyClass_false_not_upper (hU u (by simp)))
  rw [lkGo_step_skip none U F3 false '('
    (U ++ ('A' :: 'B' :: 'C' :: '-' :: (d ++ [')']))) rfl (Or.inr hUhead)]
  have hKclose : matchKeyDefault (('A' :: 'B' :: 'C' :: '-' :: d) ++ [')'])
      = some ('A' :: 'B' :: 'C' :: '-' :: d, [')']) := by
    have h := matchKeyDefault_ABC d [')'] hd hdall
      (fun x hx => by simp at hx; subst hx; decide)
    simpa using h
  have hloop := lkGo_sep_run U ('A' :: 'B' :: 'C' :: '-' :: d) hKclose U F3
    hUne hU (by omega)
  have hshift : U ++ (('A' :: 'B' :: 'C' :: '-' :: d) ++ [')'])
      = U ++ ('A' :: 'B' :: 'C' :: '-' :: (d ++ [')'])) := by simp
  rw [hshift] at hloop
  rw [hloop]

/-- C4 amended: the rewriter is NOT idempotent: for any url made of
`[^A-Z0-9]` characters and any key `ABC-d`, the second application
double-wraps the already-linkified text `[ABC-d](url ABC-d)` into
`[[ABC-d](url ABC-d)](url [ABC-d](url ABC-d))`, because the `[` and the
last url character count as fresh separators; in particular the second
pass differs from the first, while the first pass wraps the bare key
exactly once. -/
theorem c4_amended (U d : List Char) (hUne : U ≠ [])
    (hU : ∀ x ∈ U, isKeyClass x = false)
    (hd : d ≠ []) (hdall : ∀ x ∈ d, isDigit09 x = true) :
    (linkifyL none U (linkifyL none U ('A' :: 'B' :: 'C' :: '-' :: d))
        = '[' :: (linkWrap U ('A' :: 'B' :: 'C' :: '-' :: d) ++
            ']' :: '(' :: (U ++ (linkWrap U ('A' :: 'B' :: 'C' :: '-' :: d) ++ [')'])))) ∧
    linkifyL none U (linkifyL none U ('A' :: 'B' :: 'C' :: '-' :: d))
        ≠ linkifyL none U ('A' :: 'B' :: 'C' :: '-' :: d) := by
  have h1 := linkifyL_key U d hd hdall
  have hWnf : linkWrap U ('A' :: 'B' :: 'C' :: '-' :: d)
      = '[' :: ('A' :: 'B' :: 'C' :: '-' :: (d ++ (']' :: '(' ::
          (U ++ ('A' :: 'B' :: 'C' :: '-' :: (d ++ [')'])))))) := by
    simp only [linkWrap, List.cons_append, List.append_assoc]
  have hmain : linkifyL none U (linkifyL none U ('A' :: 'B' :: 'C' :: '-' :: d))
      = '[' :: (linkWrap U ('A' :: 'B' :: 'C' :: '-' :: d) ++
          ']' :: '(' :: (U ++ (linkWrap U ('A' :: 'B' :: 'C' :: '-' :: d) ++ [')']))) := by
    rw [h1]
    unfold linkifyL
    conv_lhs => rw [hWnf]
    apply lk_pass2 U d hUne hU hd hdall
    simp
    omega
  refine ⟨hmain, ?_⟩
  rw [hmain, h1]
  intro heq
  have hlen := congrArg List.length heq
  simp [linkWrap] at hlen
  omega

/-- Witness for `c4_amended` with url `u/` and key `ABC-12`. -/
theorem c4_amended_witness :
    (['u', '/'] : List Char) ≠ [] ∧
    (∀ x ∈ (['u', '/'] : List Char), isKeyClass x = false) ∧
    linkifyL none ['u', '/']
        (linkifyL none ['u', '/'] ('A' :: 'B' :: 'C' :: '-' :: ['1', '2']))
      ≠ linkifyL none ['u', '/'] ('A' :: 'B' :: 'C' :: '-' :: ['1', '2']) :=
  ⟨by decide, by decide,
   (c4_amended ['u', '/'] ['1', '2'] (by decide) (by decide) (by decide) (by decide)).2⟩

end ChangelogNotes
